import Mathlib

/-!
Verification of the Tabular Edit-Overlay & View Engine (`views.py`).

The definitions below are a shallow embedding of the Python source:
`DataGridView.get` / `DataGridView.patch`, `DataPreviewView.get`,
`DataIngestionView.post`, and the row-sanitization loop. Python dicts are
modelled as association lists preserving insertion order; Python `float`
values are modelled as exact rationals plus the special values nan, inf, -inf
(binary rounding of IEEE doubles is idealized as exact arithmetic); Python
`int` is modelled as `Int`. JSON request values are modelled by `Value`
(arrays are modelled as arrays of strings, since the validation code never
inspects array elements).
-/

namespace Views

/-- Python float values: exact finite rationals plus the IEEE special values.
Binary rounding is idealized away; `float("nan")`, `float("inf")`,
`float("-inf")` map to the corresponding special constructors. -/
inductive PyFloat where
  | finite (q : ℚ)
  | nan
  | inf
  | ninf
  deriving DecidableEq, Repr

/-- A JSON value as it arrives in a request body or is stored in a table.
`bool` is kept separate from `int` even though Python's `bool` is an `int`
subclass; the subclass behaviour is encoded in the coercion functions.
JSON arrays are modelled as arrays of strings (validation never inspects
elements, only the outer type). -/
inductive Value where
  | null
  | bool (b : Bool)
  | int (n : Int)
  | float (f : PyFloat)
  | str (s : String)
  | list (xs : List String)
  deriving DecidableEq, Repr

/-- A row: ordered mapping from column name to value (a Python dict). -/
abbrev Row := List (String × Value)

/-- The sparse edit overlay: string-encoded row index ↦ (column ↦ value). -/
abbrev Overlay := List (String × List (String × Value))

/-- First-match lookup in an association list (Python `d[k]` / `k in d`
for dicts, whose keys are unique). -/
def alookup (k : String) : List (String × α) → Option α
  | [] => none
  | (k2, v) :: rest => if k2 = k then some v else alookup k rest

/-- Python dict assignment `d[k] = v`: replace the value at an existing key
in place (keeping insertion order), else append the new pair. -/
def insertPair : List (String × α) → String → α → List (String × α)
  | [], k, v => [(k, v)]
  | (k2, w) :: rest, k, v =>
    if k2 = k then (k, v) :: rest else (k2, w) :: insertPair rest k v

/-- Python `d1.update(d2)`: assign every pair of `d2` into `d1` in order. -/
def dictUpdate (d1 d2 : List (String × α)) : List (String × α) :=
  d2.foldl (fun acc p => insertPair acc p.1 p.2) d1

/-- Keys of an association list, in order. -/
def keysOf (l : List (String × α)) : List String := l.map Prod.fst

/-- The association list has pairwise-distinct keys (true of every list
that models a Python dict). -/
def NodupKeys (l : List (String × α)) : Prop := (keysOf l).Nodup

/-- Whitespace characters stripped by Python's `int()`/`float()` before
parsing (ASCII whitespace; the unicode cases are not modelled). -/
def isPySpace (c : Char) : Bool :=
  c = ' ' || c = '\t' || c = '\n' || c = '\r' || c = '\x0b' || c = '\x0c'

/-- Strip leading and trailing whitespace from a character list. -/
def stripChars (cs : List Char) : List Char :=
  ((cs.dropWhile isPySpace).reverse.dropWhile isPySpace).reverse

/-- Split off a single optional leading sign; returns (isNegative, rest). -/
def splitSign : List Char → Bool × List Char
  | '+' :: rest => (false, rest)
  | '-' :: rest => (true, rest)
  | cs => (false, cs)

/-- Numeric value of an all-digit character list. -/
def digitsToNat (cs : List Char) : Nat :=
  cs.foldl (fun a c => a * 10 + (c.toNat - '0'.toNat)) 0

/-- Parse a nonempty all-digit character list, else fail. -/
def parseNatDigits (cs : List Char) : Option Nat :=
  if cs.isEmpty then none
  else if cs.all Char.isDigit then some (digitsToNat cs) else none

/-- Models Python's builtin `int()` applied to a string: optional
surrounding whitespace, optional sign, then decimal digits (digit-group
underscores are not modelled). `int("3.5")` raises, hence `none`. -/
def pyIntOfString (s : String) : Option Int :=
  let cs := stripChars s.toList
  let p := splitSign cs
  match parseNatDigits p.2 with
  | some m => some (if p.1 then -(m : Int) else (m : Int))
  | none => none

/-- Split a character list on every occurrence of `sep`. -/
def splitOnChar (sep : Char) : List Char → List (List Char)
  | [] => [[]]
  | c :: rest =>
    let r := splitOnChar sep rest
    if c = sep then [] :: r
    else
      match r with
      | h :: t => (c :: h) :: t
      | [] => [[c]]

/-- Parse the mantissa of a float literal: `digits`, `digits.digits`,
`.digits` or `digits.` with at least one digit overall. -/
def parseDecimalMantissa (cs : List Char) : Option ℚ :=
  match splitOnChar '.' cs with
  | [intPart] => (parseNatDigits intPart).map (fun m => (m : ℚ))
  | [intPart, fracPart] =>
    if (intPart ++ fracPart).isEmpty then none
    else if (intPart ++ fracPart).all Char.isDigit then
      some ((digitsToNat (intPart ++ fracPart) : ℚ) / (10 : ℚ) ^ fracPart.length)
    else none
  | _ => none

/-- Parse the exponent part of a float literal: optional sign, digits. -/
def parseExponent (cs : List Char) : Option Int :=
  let p := splitSign cs
  (parseNatDigits p.2).map (fun m => if p.1 then -(m : Int) else (m : Int))

/-- Models Python's builtin `float()` applied to a string: optional
surrounding whitespace and sign, then (case-insensitively) `nan`, `inf`,
`infinity`, or a decimal literal with optional exponent. Note `"nan"` and
`"inf"` parse successfully. Digit-group underscores are not modelled;
binary rounding is idealized as exact rational arithmetic. -/
def pyFloatOfString (s : String) : Option PyFloat :=
  let cs := (stripChars s.toList).map Char.toLower
  let p := splitSign cs
  if p.2 = ['n', 'a', 'n'] then some .nan
  else if p.2 = ['i', 'n', 'f'] ∨ p.2 = ['i', 'n', 'f', 'i', 'n', 'i', 't', 'y'] then
    some (if p.1 then .ninf else .inf)
  else
    match splitOnChar 'e' p.2 with
    | [mant] =>
      (parseDecimalMantissa mant).map (fun q => .finite (if p.1 then -q else q))
    | [mant, ex] =>
      match parseDecimalMantissa mant, parseExponent ex with
      | some q, some e =>
        some (.finite ((if p.1 then -q else q) * (10 : ℚ) ^ e))
      | _, _ => none
    | _ => none

/-- Lowercase a string (`s.lower()`; ASCII only). -/
def pyLower (s : String) : String := String.mk (s.toList.map Char.toLower)

/-- Rendering of a float by `str()`. The decimal rendering of non-integral
finite values is simplified (Python prints the shortest round-tripping
decimal form); no theorem depends on its exact text. -/
def pyFloatRepr : PyFloat → String
  | .nan => "nan"
  | .inf => "inf"
  | .ninf => "-inf"
  | .finite q => if q.den = 1 then toString q.num ++ ".0" else toString q

/-- Models Python's builtin `str()` on a JSON value (used by the `string`
coercion branch and by error-message interpolation). -/
def pyStr : Value → String
  | .null => "None"
  | .bool true => "True"
  | .bool false => "False"
  | .int n => toString n
  | .float f => pyFloatRepr f
  | .str s => s
  | .list xs =>
    "[" ++ String.intercalate ", " (xs.map (fun s => "\x27" ++ s ++ "\x27")) ++ "]"

/-- Type coercion for a non-null edit value, from the `try` block of
`DataGridView.patch`. `none` models a raised `ValueError`/`TypeError`.
For `number`, the `isinstance(new_value, (int, float))` test also accepts
booleans, since Python's `bool` is a subclass of `int`. Types other than
`number`, `boolean`, `string` (e.g. `date`) accept the value as-is. -/
def coerceNonNull (ty : String) (v : Value) : Option Value :=
  if ty = "number" then
    match v with
    | .str s => (pyFloatOfString s).map Value.float
    | .int _ => some v
    | .float _ => some v
    | .bool _ => some v
    | _ => none
  else if ty = "boolean" then
    match v with
    | .str s => some (.bool (decide (pyLower s ∈ ["true", "1", "yes"])))
    | .bool _ => some v
    | _ => none
  else if ty = "string" then some (.str (pyStr v))
  else some v

/-- The rejection message produced by the `except` clause of the
type-validation block. -/
def invalidValueMsg (rowIndex : Int) (col : String) (v : Value) (ty : String) : String :=
  "Row " ++ toString rowIndex ++ ", column \x27" ++ col ++ "\x27: invalid value \x27"
    ++ pyStr v ++ "\x27 for type \x27" ++ ty ++ "\x27."

/-- Validation of a single cell value against its column's declared type:
`None` is always accepted unchanged; otherwise the value is coerced, and a
coercion failure yields the rejection message. -/
def validateCell (rowIndex : Int) (col ty : String) (v : Value) : Except String Value :=
  if v = .null then .ok .null
  else
    match coerceNonNull ty v with
    | some v2 => .ok v2
    | none => .error (invalidValueMsg rowIndex col v ty)

/-- The inner loop of `DataGridView.patch` over one row's edits:
accumulates `validated_row_edits` (a dict, built by assignment) and
appends validation errors in encounter order. -/
def validateRowEditsAux (schema : List (String × String)) (rowIndex : Int)
    (acc : List (String × Value)) (errs : List String) :
    List (String × Value) → List (String × Value) × List String
  | [] => (acc, errs)
  | (col, v) :: rest =>
    match alookup col schema with
    | none =>
      validateRowEditsAux schema rowIndex acc
        (errs ++ ["Row " ++ toString rowIndex ++ ": unknown column \x27" ++ col ++ "\x27."]) rest
    | some ty =>
      match validateCell rowIndex col ty v with
      | .ok v2 => validateRowEditsAux schema rowIndex (insertPair acc col v2) errs rest
      | .error e => validateRowEditsAux schema rowIndex acc (errs ++ [e]) rest

/-- The outer loop of `DataGridView.patch` over the requested edits:
parses the row-index key, checks bounds against the data length `n`,
validates each row's cells, and accumulates `validated_edits` plus all
validation errors across the whole request. A row whose validated edits
are empty is not added (Python dict truthiness). -/
def validatePatchAux (schema : List (String × String)) (n : Nat)
    (acc : Overlay) (errs : List String) :
    List (String × List (String × Value)) → Overlay × List String
  | [] => (acc, errs)
  | (ris, rowE) :: rest =>
    match pyIntOfString ris with
    | none => validatePatchAux schema n acc (errs ++ ["Invalid row index: " ++ ris]) rest
    | some ri =>
      if 0 ≤ ri ∧ ri < (n : Int) then
        let r := validateRowEditsAux schema ri [] [] rowE
        let acc2 := if r.1 ≠ [] then insertPair acc (toString ri.toNat) r.1 else acc
        validatePatchAux schema n acc2 (errs ++ r.2) rest
      else
        validatePatchAux schema n acc
          (errs ++ ["Row index " ++ toString ri ++ " out of range."]) rest

/-- Validation pass of `DataGridView.patch`: returns
(`validated_edits`, `validation_errors`). -/
def validatePatch (schema : List (String × String)) (n : Nat)
    (edits : List (String × List (String × Value))) : Overlay × List String :=
  validatePatchAux schema n [] [] edits

/-- The stored representation of one ingested file (the `DataTable` model
fields used by the views). -/
structure DataTable where
  schema_json : List (String × String)
  num_rows : Nat
  sample_json : List Row
  full_data_json : Option (List Row)
  edited_data_json : Overlay
  deriving DecidableEq, Repr

/-- Modelled from the spec: the repository's `DataTable.get_edited_data`
(in `models.py`, not under `src/`) returns the stored edit overlay,
empty when no edits were ever applied. -/
def DataTable.get_edited_data (t : DataTable) : Overlay := t.edited_data_json

/-- Modelled from the spec: the repository's `DataTable.get_schema`
(in `models.py`, not under `src/`) returns the stored schema mapping. -/
def DataTable.get_schema (t : DataTable) : List (String × String) := t.schema_json

/-- Merge one overlay row onto a base row: every key present in the
overlay row overrides the base value (dict-update semantics). -/
def mergeRow (base ovRow : Row) : Row := dictUpdate base ovRow

/-- Merge the overlay onto base rows starting at row index `i`. -/
def materializeFrom (ov : Overlay) (i : Nat) : List Row → List Row
  | [] => []
  | row :: rest =>
    (match alookup (toString i) ov with
      | some ovRow => mergeRow row ovRow
      | none => row) :: materializeFrom ov (i + 1) rest

/-- Modelled from the spec: the repository's `DataTable.get_data_with_edits`
(in `models.py`, not under `src/`) — `materialize`: row `i` is
`fullRows[i]` with every key present in the overlay entry for `i`
overridden; `none` when full data is absent (sample-only table). -/
def DataTable.get_data_with_edits (t : DataTable) : Option (List Row) :=
  t.full_data_json.map (fun rows => materializeFrom t.edited_data_json 0 rows)

/-- `DataGridView.patch` after project/table resolution: validate the whole
request, return the full error list without mutating anything if any error
exists, otherwise merge `validated_edits` into the stored overlay with a
row-level `dict.update`. -/
def DataGridView_patch (t : DataTable) (edits : List (String × List (String × Value))) :
    Except (List String) DataTable :=
  match t.get_data_with_edits with
  | none => .error ["Full data not available for editing."]
  | some data =>
    let r := validatePatch t.get_schema data.length edits
    if r.2 ≠ [] then .error r.2
    else .ok { t with edited_data_json := dictUpdate t.get_edited_data r.1 }

/-- Pagination metadata returned by `DataGridView.get`. -/
structure PageInfo where
  page : Nat
  page_size : Nat
  total_rows : Nat
  total_pages : Nat
  has_next : Bool
  has_previous : Bool
  deriving DecidableEq, Repr

/-- `DataGridView.get` after data resolution: offset pagination over the
materialized rows. Python's nonnegative slice `data[start:end]` is
`(data.drop start).take (end - start)`. The model covers `page ≥ 1` and
`page_size ≥ 1` (Python's negative-index slicing for smaller arguments is
out of the claims' scope). -/
def DataGridView_get (data : List Row) (page page_size : Nat) :
    Except String (List Row × PageInfo) :=
  let total_rows := data.length
  let start_index := (page - 1) * page_size
  let end_index := min (start_index + page_size) total_rows
  if start_index ≥ total_rows then .error "Page out of range."
  else
    .ok ((data.drop start_index).take (end_index - start_index),
      { page := page
        page_size := page_size
        total_rows := total_rows
        total_pages := (total_rows + page_size - 1) / page_size
        has_next := decide (end_index < total_rows)
        has_previous := decide (page > 1) })

/-- Number of pages: `(total_rows + page_size - 1) // page_size`. -/
def totalPages (n ps : Nat) : Nat := (n + ps - 1) / ps

/-- The row slice served for zero-based page number `k`. -/
def pageSlice (rows : List Row) (k ps : Nat) : List Row :=
  (rows.drop (k * ps)).take ps

/-- Concatenation, in order, of every page of the dataset. -/
def joinedPages (rows : List Row) (ps : Nat) : List Row :=
  (List.range (totalPages rows.length ps)).flatMap (fun k => pageSlice rows k ps)

/-- The preview limit clamp: `max(1, min(limit, 10000))`. -/
def clampLimit (raw : Int) : Nat := (max 1 (min raw 10000)).toNat

/-- Sampled row index `int(i * step)` where `step = total_rows / limit`;
Python's float arithmetic is modelled as exact rational division. -/
def sampleIndex (total limit i : Nat) : Nat :=
  (⌊(i : ℚ) * ((total : ℚ) / (limit : ℚ))⌋).toNat

/-- `DataPreviewView.get` after data resolution: returns the preview rows
and the `is_sampled` flag. When sampling, rows at evenly strided indices
are collected, skipping any computed index `≥ total_rows`. -/
def DataPreviewView_get (data : List Row) (rawLimit : Int) : List Row × Bool :=
  let limit := clampLimit rawLimit
  let total_rows := data.length
  if total_rows > limit then
    ((List.range limit).filterMap (fun i =>
        let index := sampleIndex total_rows limit i
        if index < total_rows then data[index]? else none),
      true)
  else (data, false)

/-- A raw cell value as produced by the external parser, before the
sanitization loop of `DataIngestionView.post`: a missing marker
(`pd.isna` true — this includes parser-native NaN), a timestamp carrying
its ISO-8601 rendering, a boxed numpy scalar whose `.item()` either yields
a plain value or raises (`none`), or an already-plain value. -/
inductive RawValue where
  | na
  | timestamp (iso : String)
  | boxed (item : Option Value)
  | plain (v : Value)
  deriving DecidableEq, Repr

/-- The per-cell sanitization from the record loop of
`DataIngestionView.post`: missing → `None`; timestamp → ISO string;
boxed scalar → unboxed item, or `None` if `.item()` fails; else unchanged. -/
def canonicalizeCell : RawValue → Value
  | .na => .null
  | .timestamp iso => .str iso
  | .boxed (some v) => v
  | .boxed none => .null
  | .plain v => v

/-- Sanitize one parsed row. -/
def sanitizeRow (r : List (String × RawValue)) : Row :=
  r.map (fun p => (p.1, canonicalizeCell p.2))

/-- Sanitize a parsed row sequence. -/
def sanitizeRows (rs : List (List (String × RawValue))) : List Row :=
  rs.map sanitizeRow

/-- The result of `parse_file` (external collaborator): schema, total row
count, and the bounded sample. -/
structure ParseResult where
  schema : List (String × String)
  num_rows : Nat
  sample_data : List Row
  deriving DecidableEq, Repr

/-- `DataIngestionView.post` after project/file resolution, with the
external environment passed explicitly and deterministically per file:
`existing` is the `DataTable` already stored for `(project, sourceFile)`
(if any), `parsed` the outcome of `parse_file`, and `fullParse` the
outcome of the bounded full-data re-parse (`none` models an unsupported
extension or any exception, which the code degrades to sample-only or
skips during backfill). Returns the table and whether it was created. -/
def DataIngestionView_post (existing : Option DataTable)
    (parsed : Except String ParseResult)
    (fullParse : Option (List (List (String × RawValue)))) :
    Except String (DataTable × Bool) :=
  match existing with
  | some t =>
    if t.full_data_json = none ∧ t.num_rows ≤ 10000 then
      match fullParse with
      | some raws => .ok ({ t with full_data_json := some (sanitizeRows raws) }, false)
      | none => .ok (t, false)
    else .ok (t, false)
  | none =>
    match parsed with
    | .error e => .error e
    | .ok pr =>
      let full_data := if pr.num_rows ≤ 10000 then fullParse.map sanitizeRows else none
      .ok ({ schema_json := pr.schema
             num_rows := pr.num_rows
             sample_json := pr.sample_data
             full_data_json := full_data
             edited_data_json := [] }, true)

/-- The validation error one cell alone generates (`none` if it is
accepted): the unknown-column message, or the type-rejection message. -/
def rowCellError (schema : List (String × String)) (ri : Int)
    (cv : String × Value) : Option String :=
  match alookup cv.1 schema with
  | none => some ("Row " ++ toString ri ++ ": unknown column \x27" ++ cv.1 ++ "\x27.")
  | some ty =>
    match validateCell ri cv.1 ty cv.2 with
    | .ok _ => none
    | .error e => some e

/-- The validation errors one request entry alone generates, row by row:
an unparseable index or out-of-range index yields its single message,
otherwise each failing cell of the row yields its message in order.
The full error list of a request is the concatenation of these. -/
def entryErrors (schema : List (String × String)) (n : Nat)
    (entry : String × List (String × Value)) : List String :=
  match pyIntOfString entry.1 with
  | none => ["Invalid row index: " ++ entry.1]
  | some ri =>
    if 0 ≤ ri ∧ ri < (n : Int) then entry.2.filterMap (rowCellError schema ri)
    else ["Row index " ++ toString ri ++ " out of range."]

/-- The value of cell `(i, c)` in a materialized row sequence. -/
def cellAt (rows : List Row) (i : Nat) (c : String) : Option Value :=
  match rows[i]? with
  | some row => alookup c row
  | none => none

/-- A stored value conforms to its column's declared type: `null` always;
`number` columns hold booleans (accepted by the numeric instance check),
integers, or floats (which may be NaN or infinite when parsed from a
string); `boolean` columns hold booleans; `string` columns hold strings;
any other declared type (e.g. `date`) holds the value as given. -/
def ValueTypeOk (ty : String) (v : Value) : Prop :=
  v = .null ∨
    (if ty = "number" then
        (∃ b, v = .bool b) ∨ (∃ n, v = .int n) ∨ (∃ f, v = .float f)
      else if ty = "boolean" then ∃ b, v = .bool b
      else if ty = "string" then ∃ s, v = .str s
      else True)

/-- Every cell value in the overlay belongs to a schema column and
conforms to that column's declared type. -/
def OverlayTyped (schema : List (String × String)) (ov : Overlay) : Prop :=
  ∀ r row, alookup r ov = some row →
    ∀ c v, alookup c row = some v →
      ∃ ty, alookup c schema = some ty ∧ ValueTypeOk ty v

/-- Decidable equality for `Except` results, used to evaluate the
operations at concrete inputs. -/
instance {ε α : Type} [DecidableEq ε] [DecidableEq α] : DecidableEq (Except ε α)
  | .error e1, .error e2 =>
    if h : e1 = e2 then .isTrue (by rw [h]) else .isFalse (by intro hc; cases hc; exact h rfl)
  | .ok a1, .ok a2 =>
    if h : a1 = a2 then .isTrue (by rw [h]) else .isFalse (by intro hc; cases hc; exact h rfl)
  | .error _, .ok _ => .isFalse (by intro hc; cases hc)
  | .ok _, .error _ => .isFalse (by intro hc; cases hc)

/-! ### Association-list lemmas -/

theorem alookup_eq_none_of_not_mem {l : List (String × α)} {x : String}
    (h : x ∉ keysOf l) : alookup x l = none := by
  induction l with
  | nil => rfl
  | cons p rest ih =>
    simp only [keysOf, List.map_cons, List.mem_cons, not_or] at h
    obtain ⟨h1, h2⟩ := h
    obtain ⟨k2, w⟩ := p
    simp only [alookup, if_neg (fun he : k2 = x => h1 he.symm)]
    exact ih h2

theorem alookup_insertPair (l : List (String × α)) (k x : String) (v : α) :
    alookup x (insertPair l k v) = if k = x then some v else alookup x l := by
  induction l with
  | nil => simp [insertPair, alookup]
  | cons p rest ih =>
    obtain ⟨k2, w⟩ := p
    by_cases h : k2 = k
    · subst h
      by_cases h2 : k2 = x <;> simp [insertPair, alookup, h2]
    · have hne : ¬(k = k2) := fun he => h he.symm
      by_cases h2 : k2 = x
      · subst h2
        simp [insertPair, h, alookup, hne]
      · simp [insertPair, h, alookup, h2, ih]

theorem mem_keysOf_insertPair {l : List (String × α)} {k x : String} {v : α} :
    x ∈ keysOf (insertPair l k v) ↔ x = k ∨ x ∈ keysOf l := by
  induction l with
  | nil => simp [insertPair, keysOf]
  | cons p rest ih =>
    obtain ⟨k2, w⟩ := p
    by_cases h : k2 = k
    · subst h
      simp [insertPair, keysOf]
    · simp only [insertPair, if_neg h, keysOf, List.map_cons, List.mem_cons]
      constructor
      · rintro (h1 | h2)
        · exact Or.inr (Or.inl h1)
        · rcases ih.mp h2 with h3 | h4
          · exact Or.inl h3
          · exact Or.inr (Or.inr h4)
      · rintro (h1 | h2 | h3)
        · exact Or.inr (ih.mpr (Or.inl h1))
        · exact Or.inl h2
        · exact Or.inr (ih.mpr (Or.inr h3))

theorem nodupKeys_insertPair {l : List (String × α)} {k : String} {v : α}
    (h : NodupKeys l) : NodupKeys (insertPair l k v) := by
  induction l with
  | nil => simp [insertPair, NodupKeys, keysOf]
  | cons p rest ih =>
    obtain ⟨k2, w⟩ := p
    simp only [NodupKeys, keysOf, List.map_cons, List.nodup_cons] at h
    by_cases hk : k2 = k
    · subst hk
      simpa [insertPair, NodupKeys, keysOf] using h
    · have hrest := ih h.2
      simp only [insertPair, if_neg hk, NodupKeys, keysOf, List.map_cons, List.nodup_cons]
      refine ⟨?_, hrest⟩
      intro hmem
      rcases mem_keysOf_insertPair.mp hmem with h1 | h2
      · exact hk h1
      · exact h.1 h2

theorem dictUpdate_nil (d1 : List (String × α)) : dictUpdate d1 [] = d1 := rfl

theorem dictUpdate_cons (d1 : List (String × α)) (k : String) (v : α) (d2 : List (String × α)) :
    dictUpdate d1 ((k, v) :: d2) = dictUpdate (insertPair d1 k v) d2 := rfl

theorem alookup_dictUpdate (d1 : List (String × α)) {d2 : List (String × α)}
    (h : NodupKeys d2) (x : String) :
    alookup x (dictUpdate d1 d2) = (alookup x d2).or (alookup x d1) := by
  induction d2 generalizing d1 with
  | nil => simp [dictUpdate_nil, alookup]
  | cons p rest ih =>
    obtain ⟨k, v⟩ := p
    simp only [NodupKeys, keysOf, List.map_cons, List.nodup_cons] at h
    rw [dictUpdate_cons, ih _ h.2, alookup_insertPair]
    by_cases hx : k = x
    · subst hx
      rw [alookup_eq_none_of_not_mem h.1]
      simp [alookup]
    · simp [alookup, fun he : x = k => hx he.symm, hx]

theorem nodupKeys_dictUpdate {d1 d2 : List (String × α)} (h : NodupKeys d1) :
    NodupKeys (dictUpdate d1 d2) := by
  induction d2 generalizing d1 with
  | nil => exact h
  | cons p rest ih => exact ih (nodupKeys_insertPair h)

/-! ### Materialization lemmas -/

theorem materializeFrom_length (ov : Overlay) :
    ∀ (i : Nat) (rows : List Row), (materializeFrom ov i rows).length = rows.length := by
  intro i rows
  induction rows generalizing i with
  | nil => rfl
  | cons row rest ih => simp [materializeFrom, ih]

theorem materializeFrom_getElem? (ov : Overlay) :
    ∀ (rows : List Row) (i j : Nat),
      (materializeFrom ov i rows)[j]? =
        (rows[j]?).map (fun row =>
          match alookup (toString (i + j)) ov with
          | some ovRow => mergeRow row ovRow
          | none => row) := by
  intro rows
  induction rows with
  | nil => intro i j; rfl
  | cons row rest ih =>
    intro i j
    cases j with
    | zero => simp [materializeFrom]
    | succ j =>
      simp only [materializeFrom, List.getElem?_cons_succ, ih (i + 1) j]
      have : i + 1 + j = i + (j + 1) := by omega
      rw [this]

/-! ### Validation-loop lemmas -/

theorem validateRowEditsAux_snd (schema : List (String × String)) (ri : Int) :
    ∀ (l acc : List (String × Value)) (errs : List String),
      (validateRowEditsAux schema ri acc errs l).2 =
        errs ++ l.filterMap (rowCellError schema ri) := by
  intro l
  induction l with
  | nil => intro acc errs; simp [validateRowEditsAux]
  | cons cv rest ih =>
    intro acc errs
    obtain ⟨col, v⟩ := cv
    cases halo : alookup col schema with
    | none =>
      simp [validateRowEditsAux, halo, ih, rowCellError, List.filterMap_cons]
    | some ty =>
      cases hvc : validateCell ri col ty v with
      | ok v2 =>
        simp [validateRowEditsAux, halo, hvc, ih, rowCellError, List.filterMap_cons]
      | error e =>
        simp [validateRowEditsAux, halo, hvc, ih, rowCellError, List.filterMap_cons]

theorem validateRowEditsAux_fst_pres (schema : List (String × String)) (ri : Int)
    (Q : List (String × Value) → Prop)
    (hins : ∀ acc col ty v v2, Q acc → alookup col schema = some ty →
      validateCell ri col ty v = .ok v2 → Q (insertPair acc col v2)) :
    ∀ (l acc : List (String × Value)) (errs : List String),
      Q acc → Q (validateRowEditsAux schema ri acc errs l).1 := by
  intro l
  induction l with
  | nil => intro acc errs hq; exact hq
  | cons cv rest ih =>
    intro acc errs hq
    obtain ⟨col, v⟩ := cv
    cases halo : alookup col schema with
    | none => simpa [validateRowEditsAux, halo] using ih _ _ hq
    | some ty =>
      cases hvc : validateCell ri col ty v with
      | ok v2 =>
        simpa [validateRowEditsAux, halo, hvc] using
          ih _ _ (hins acc col ty v v2 hq halo hvc)
      | error e => simpa [validateRowEditsAux, halo, hvc] using ih _ _ hq

theorem validateRowEdits_nodup (schema : List (String × String)) (ri : Int)
    (rowE : List (String × Value)) :
    NodupKeys (validateRowEditsAux schema ri [] [] rowE).1 := by
  refine validateRowEditsAux_fst_pres schema ri NodupKeys ?_ rowE [] [] ?_
  · intro acc col ty v v2 hq _ _
    exact nodupKeys_insertPair hq
  · simp [NodupKeys, keysOf]

theorem coerceNonNull_typed {ty : String} {v v2 : Value}
    (h : coerceNonNull ty v = some v2) : ValueTypeOk ty v2 := by
  unfold coerceNonNull at h
  unfold ValueTypeOk
  by_cases h1 : ty = "number"
  · rw [if_pos h1] at h
    rw [if_pos h1]
    cases v with
    | str s =>
      simp only [Option.map_eq_some'] at h
      obtain ⟨f, _, hv⟩ := h
      exact Or.inr (Or.inr (Or.inr ⟨f, hv.symm⟩))
    | int n => simp only [Option.some.injEq] at h; exact Or.inr (Or.inr (Or.inl ⟨n, h.symm⟩))
    | float f => simp only [Option.some.injEq] at h; exact Or.inr (Or.inr (Or.inr ⟨f, h.symm⟩))
    | bool b => simp only [Option.some.injEq] at h; exact Or.inr (Or.inl ⟨b, h.symm⟩)
    | null => simp at h
    | list xs => simp at h
  · rw [if_neg h1] at h
    rw [if_neg h1]
    by_cases h2 : ty = "boolean"
    · rw [if_pos h2] at h
      rw [if_pos h2]
      cases v with
      | str s => simp only [Option.some.injEq] at h; exact Or.inr ⟨_, h.symm⟩
      | bool b => simp only [Option.some.injEq] at h; exact Or.inr ⟨b, h.symm⟩
      | null => simp at h
      | int n => simp at h
      | float f => simp at h
      | list xs => simp at h
    · rw [if_neg h2] at h
      rw [if_neg h2]
      by_cases h3 : ty = "string"
      · rw [if_pos h3] at h
        rw [if_pos h3]
        simp only [Option.some.injEq] at h
        exact Or.inr ⟨_, h.symm⟩
      · rw [if_neg h3] at h
        rw [if_neg h3]
        exact Or.inr trivial

theorem validateCell_ok_typed {ri : Int} {col ty : String} {v v2 : Value}
    (h : validateCell ri col ty v = .ok v2) : ValueTypeOk ty v2 := by
  unfold validateCell at h
  by_cases hnull : v = .null
  · rw [if_pos hnull] at h
    cases h
    exact Or.inl rfl
  · rw [if_neg hnull] at h
    cases hco : coerceNonNull ty v with
    | none => rw [hco] at h; cases h
    | some v3 =>
      rw [hco] at h
      cases h
      exact coerceNonNull_typed hco

theorem validateRowEdits_typed (schema : List (String × String)) (ri : Int)
    (rowE : List (String × Value)) :
    ∀ c v, alookup c (validateRowEditsAux schema ri [] [] rowE).1 = some v →
      ∃ ty, alookup c schema = some ty ∧ ValueTypeOk ty v := by
  refine validateRowEditsAux_fst_pres schema ri
    (fun acc => ∀ c v, alookup c acc = some v →
      ∃ ty, alookup c schema = some ty ∧ ValueTypeOk ty v) ?_ rowE [] [] ?_
  · intro acc col ty v v2 hq halo hvc c w hw
    rw [alookup_insertPair] at hw
    by_cases hc : col = c
    · subst hc
      rw [if_pos rfl] at hw
      cases hw
      exact ⟨ty, halo, validateCell_ok_typed hvc⟩
    · rw [if_neg hc] at hw
      exact hq c w hw
  · intro c v h
    cases h

theorem validatePatchAux_snd (schema : List (String × String)) (n : Nat) :
    ∀ (l : List (String × List (String × Value))) (acc : Overlay) (errs : List String),
      (validatePatchAux schema n acc errs l).2 = errs ++ l.flatMap (entryErrors schema n) := by
  intro l
  induction l with
  | nil => intro acc errs; simp [validatePatchAux]
  | cons entry rest ih =>
    intro acc errs
    obtain ⟨ris, rowE⟩ := entry
    cases hpi : pyIntOfString ris with
    | none => simp [validatePatchAux, hpi, ih, entryErrors, List.flatMap_cons]
    | some ri =>
      by_cases hrange : 0 ≤ ri ∧ ri < (n : Int)
      · simp only [validatePatchAux, hpi, if_pos hrange, ih, entryErrors,
          List.flatMap_cons, validateRowEditsAux_snd, List.nil_append, List.append_assoc]
      · simp [validatePatchAux, hpi, hrange, ih, entryErrors, List.flatMap_cons]

theorem validatePatchAux_fst_nodup (schema : List (String × String)) (n : Nat) :
    ∀ (l : List (String × List (String × Value))) (acc : Overlay) (errs : List String),
      NodupKeys acc → NodupKeys (validatePatchAux schema n acc errs l).1 := by
  intro l
  induction l with
  | nil => intro acc errs h; exact h
  | cons entry rest ih =>
    intro acc errs h
    obtain ⟨ris, rowE⟩ := entry
    cases hpi : pyIntOfString ris with
    | none => simpa [validatePatchAux, hpi] using ih _ _ h
    | some ri =>
      by_cases hrange : 0 ≤ ri ∧ ri < (n : Int)
      · simp only [validatePatchAux, hpi, if_pos hrange]
        by_cases hne : (validateRowEditsAux schema ri [] [] rowE).1 ≠ []
        · simpa [hne] using ih _ _ (nodupKeys_insertPair h)
        · simpa [hne] using ih _ _ h
      · simpa [validatePatchAux, hpi, hrange] using ih _ _ h

theorem validatePatchAux_fst_rows (schema : List (String × String)) (n : Nat)
    (R : List (String × Value) → Prop)
    (hrow : ∀ (ri : Int) (rowE : List (String × Value)),
      R (validateRowEditsAux schema ri [] [] rowE).1) :
    ∀ (l : List (String × List (String × Value))) (acc : Overlay) (errs : List String),
      (∀ r row, alookup r acc = some row → R row) →
      ∀ r row, alookup r (validatePatchAux schema n acc errs l).1 = some row → R row := by
  intro l
  induction l with
  | nil => intro acc errs h r row hr; exact h r row hr
  | cons entry rest ih =>
    intro acc errs h
    obtain ⟨ris, rowE⟩ := entry
    cases hpi : pyIntOfString ris with
    | none => simpa [validatePatchAux, hpi] using ih _ _ h
    | some ri =>
      by_cases hrange : 0 ≤ ri ∧ ri < (n : Int)
      · simp only [validatePatchAux, hpi, if_pos hrange]
        by_cases hne : (validateRowEditsAux schema ri [] [] rowE).1 ≠ []
        · simp only [if_pos hne]
          refine ih _ _ ?_
          intro r row hr
          rw [alookup_insertPair] at hr
          by_cases hk : toString ri.toNat = r
          · rw [if_pos hk] at hr
            cases hr
            exact hrow ri rowE
          · rw [if_neg hk] at hr
            exact h r row hr
        · simpa [hne] using ih _ _ h
      · simpa [validatePatchAux, hpi, hrange] using ih _ _ h

/-- Specification of a successful `DataGridView.patch`: no validation
errors, and the only change to the table is the row-level `dict.update`
of the overlay with `validated_edits`. -/
theorem patch_ok_spec {t t' : DataTable} {base : List Row}
    {edits : List (String × List (String × Value))}
    (hfull : t.full_data_json = some base)
    (h : DataGridView_patch t edits = .ok t') :
    (validatePatch t.schema_json base.length edits).2 = [] ∧
      t'.schema_json = t.schema_json ∧
      t'.num_rows = t.num_rows ∧
      t'.sample_json = t.sample_json ∧
      t'.full_data_json = t.full_data_json ∧
      t'.edited_data_json =
        dictUpdate t.edited_data_json (validatePatch t.schema_json base.length edits).1 := by
  unfold DataGridView_patch at h
  rw [show t.get_data_with_edits =
      some (materializeFrom t.edited_data_json 0 base) by
    simp [DataTable.get_data_with_edits, hfull]] at h
  simp only [materializeFrom_length] at h
  by_cases he : (validatePatch t.get_schema base.length edits).2 ≠ []
  · rw [if_pos he] at h
    cases h
  · rw [if_neg he] at h
    push_neg at he
    cases h
    exact ⟨he, rfl, rfl, rfl, rfl, rfl⟩

/-! ### Pagination lemmas -/

theorem totalPages_pos_eq {n ps : Nat} (hps : 1 ≤ ps) (hn : 1 ≤ n) :
    totalPages n ps = totalPages (n - ps) ps + 1 := by
  unfold totalPages
  by_cases hle : n ≤ ps
  · have h0 : n - ps = 0 := by omega
    rw [h0]
    have h1 : (0 + ps - 1) / ps = 0 := Nat.div_eq_of_lt (by omega)
    rw [h1]
    exact Nat.div_eq_of_lt_le (by omega) (by omega)
  · have : n + ps - 1 = (n - ps + ps - 1) + ps := by omega
    rw [this, Nat.add_div_right _ (by omega)]

theorem pagesConcat_eq (ps : Nat) (hps : 1 ≤ ps) :
    ∀ (rows : List Row), joinedPages rows ps = rows := by
  have H : ∀ (n : Nat) (rows : List Row), rows.length = n → joinedPages rows ps = rows := by
    intro n
    induction n using Nat.strong_induction_on with
    | _ n ih =>
      intro rows hn
      cases rows with
      | nil =>
        simp only [joinedPages, List.length_nil]
        rw [show totalPages 0 ps = 0 from Nat.div_eq_of_lt (by omega)]
        rfl
      | cons row rest =>
        have hlen : 1 ≤ (row :: rest).length := by simp
        rw [joinedPages, totalPages_pos_eq hps hlen, List.range_succ_eq_map]
        simp only [List.flatMap_cons, List.flatMap_map]
        have hfirst : pageSlice (row :: rest) 0 ps = (row :: rest).take ps := by
          simp [pageSlice]
        have hrest : ∀ k, pageSlice (row :: rest) (k + 1) ps =
            pageSlice ((row :: rest).drop ps) k ps := by
          intro k
          simp only [pageSlice, List.drop_drop]
          have h9 : ps + k * ps = (k + 1) * ps := by ring
          rw [h9]
        have htail :
            (List.range (totalPages ((row :: rest).length - ps) ps)).flatMap
                (fun a => pageSlice (row :: rest) (a + 1) ps) =
              joinedPages ((row :: rest).drop ps) ps := by
          rw [joinedPages, List.length_drop]
          exact List.flatMap_congr (fun k _ => hrest k)
        have hsmaller : ((row :: rest).drop ps).length < n := by
          simp only [List.length_drop, List.length_cons]
          simp only [List.length_cons] at hn
          omega
        rw [hfirst, htail, ih ((row :: rest).drop ps).length hsmaller _ rfl]
        exact List.take_append_drop ps (row :: rest)
  intro rows
  exact H rows.length rows rfl

theorem getPage_ok {rows : List Row} {ps k : Nat} (hps : 1 ≤ ps)
    (hk : k < totalPages rows.length ps) :
    DataGridView_get rows (k + 1) ps =
      .ok (pageSlice rows k ps,
        { page := k + 1
          page_size := ps
          total_rows := rows.length
          total_pages := totalPages rows.length ps
          has_next := decide (min (k * ps + ps) rows.length < rows.length)
          has_previous := decide (k + 1 > 1) }) := by
  have hstart : k * ps < rows.length := by
    have hn : 1 ≤ rows.length := by
      rcases Nat.eq_zero_or_pos rows.length with h0 | h1
      · rw [h0] at hk
        rw [show totalPages 0 ps = 0 from Nat.div_eq_of_lt (by omega)] at hk
        omega
      · exact h1
    have h2 : totalPages rows.length ps * ps ≤ rows.length + ps - 1 :=
      Nat.div_mul_le_self _ _
    have h3 : (k + 1) * ps ≤ totalPages rows.length ps * ps :=
      Nat.mul_le_mul_right ps hk
    have h4 : (k + 1) * ps = k * ps + ps := by ring
    have h5 : k * ps + ps ≤ rows.length + ps - 1 := by
      calc k * ps + ps = (k + 1) * ps := h4.symm
        _ ≤ totalPages rows.length ps * ps := h3
        _ ≤ rows.length + ps - 1 := h2
    generalize k * ps = a at h5 ⊢
    omega
  unfold DataGridView_get
  rw [if_neg (by simp only [Nat.add_sub_cancel]; omega)]
  have hslice : (rows.drop ((k + 1 - 1) * ps)).take
      (min ((k + 1 - 1) * ps + ps) rows.length - (k + 1 - 1) * ps) =
      pageSlice rows k ps := by
    simp only [Nat.add_sub_cancel, pageSlice]
    rw [List.take_eq_take]
    simp only [List.length_drop]
    omega
  rw [hslice]
  rfl

/-! ### Sampling lemmas -/

theorem sampleIndex_eq (total limit i : Nat) :
    sampleIndex total limit i = i * total / limit := by
  unfold sampleIndex
  rw [Int.floor_toNat]
  have h : (i : ℚ) * ((total : ℚ) / (limit : ℚ)) = ((i * total : ℕ) : ℚ) / (limit : ℚ) := by
    push_cast
    ring
  rw [h, Nat.floor_div_nat, Nat.floor_natCast]

theorem one_le_clampLimit (raw : Int) : 1 ≤ clampLimit raw := by
  unfold clampLimit
  omega

theorem sampleIndex_lt_succ {total limit : Nat} (hl : 1 ≤ limit) (h : limit < total)
    (i : Nat) : sampleIndex total limit i < sampleIndex total limit (i + 1) := by
  rw [sampleIndex_eq, sampleIndex_eq]
  have h1 : (i + 1) * total = i * total + total := by ring
  have h2 : i * total + limit ≤ i * total + total :=
    Nat.add_le_add_left (Nat.le_of_lt h) _
  have h3 : (i * total + limit) / limit ≤ ((i + 1) * total) / limit := by
    rw [h1]
    exact Nat.div_le_div_right h2
  rw [Nat.add_div_right _ (by omega)] at h3
  generalize i * total / limit = a at h3 ⊢
  generalize (i + 1) * total / limit = b at h3 ⊢
  omega

theorem sampleIndex_strictMono {total limit : Nat} (hl : 1 ≤ limit) (h : limit < total) :
    StrictMono (fun i => sampleIndex total limit i) :=
  strictMono_nat_of_lt_succ (sampleIndex_lt_succ hl h)

theorem sampleIndex_lt_total {total limit : Nat} (ht : 1 ≤ total)
    {i : Nat} (hi : i < limit) : sampleIndex total limit i < total := by
  rw [sampleIndex_eq]
  rw [Nat.div_lt_iff_lt_mul (by omega)]
  have h1 : i * total < limit * total := (Nat.mul_lt_mul_right ht).mpr hi
  rw [Nat.mul_comm total limit]
  exact h1

theorem filterMap_all_some {α β : Type} (f : α → Option β) (g : α → β)
    (l : List α) (h : ∀ x ∈ l, f x = some (g x)) : l.filterMap f = l.map g := by
  induction l with
  | nil => rfl
  | cons x rest ih =>
    rw [List.filterMap_cons, h x (List.mem_cons_self x rest), List.map_cons,
      ih (fun y hy => h y (List.mem_cons_of_mem x hy))]

theorem preview_sampled_eq {data : List Row} {raw : Int}
    (h : clampLimit raw < data.length) :
    DataPreviewView_get data raw =
      ((List.range (clampLimit raw)).map
          (fun i => data.getD (sampleIndex data.length (clampLimit raw) i) []),
        true) := by
  unfold DataPreviewView_get
  rw [if_pos (by omega)]
  refine congrArg (fun l => (l, true)) ?_
  refine filterMap_all_some _ _ _ ?_
  intro i hi
  rw [List.mem_range] at hi
  have hidx : sampleIndex data.length (clampLimit raw) i < data.length :=
    sampleIndex_lt_total (by omega) hi
  simp only [if_pos hidx]
  rw [List.getElem?_eq_getElem hidx, List.getD_eq_getElem data [] hidx]

/-! ### Claim theorems -/

/-- C4 counterexample: the claim grants `page = 1` on empty rows an
empty-slice result, but the code returns the page-out-of-range error
there (`0 ≥ 0` triggers the guard). -/
theorem spec_C4_counterexample :
    DataGridView_get ([] : List Row) 1 1 = .error "Page out of range." := by
  decide

/-- C4 (amended): for `page ≥ 1` and `pageSize ≥ 1`, `getPage` fails with
the page-out-of-range error exactly when `(page-1)*pageSize ≥ len(rows)`,
with no exception for `page = 1` on empty rows (which also errors). -/
theorem spec_C4 (rows : List Row) (page ps : Nat) (hpage : 1 ≤ page) (hps : 1 ≤ ps) :
    (∃ e, DataGridView_get rows page ps = .error e) ↔
      rows.length ≤ (page - 1) * ps := by
  simp only [DataGridView_get]
  by_cases h : (page - 1) * ps ≥ rows.length
  · rw [if_pos h]
    exact ⟨fun _ => h, fun _ => ⟨"Page out of range.", rfl⟩⟩
  · rw [if_neg h]
    constructor
    · rintro ⟨e, he⟩
      cases he
    · intro hc
      exact absurd hc h

/-- C4 witness: at `rows = [one row]`, `page = 2`, `pageSize = 1` the
equivalence holds with both sides true. -/
theorem spec_C4_witness :
    1 ≤ 2 ∧ 1 ≤ 1 ∧
      ((∃ e, DataGridView_get [[("a", Value.int 1)]] 2 1 = .error e) ↔
        [[("a", Value.int 1)]].length ≤ (2 - 1) * 1) :=
  ⟨by decide, by decide, spec_C4 [[("a", Value.int 1)]] 2 1 (by decide) (by decide)⟩

/-- C7: re-requesting ingestion for the same `(project, sourceFile)` (the
external parse outcomes being a deterministic function of the file)
returns the very same table with the created flag false — no second
`DataTable` is created, and schema, row count and full rows are
identical to the first call's. -/
theorem spec_C7 (parsed : Except String ParseResult)
    (fullParse : Option (List (List (String × RawValue))))
    (t1 : DataTable)
    (h : DataIngestionView_post none parsed fullParse = .ok (t1, true)) :
    DataIngestionView_post (some t1) parsed fullParse = .ok (t1, false) := by
  cases parsed with
  | error e => simp [DataIngestionView_post] at h
  | ok pr =>
    simp only [DataIngestionView_post] at h
    rw [Except.ok.injEq, Prod.mk.injEq] at h
    obtain ⟨ht, -⟩ := h
    subst ht
    by_cases hn : pr.num_rows ≤ 10000
    · cases fullParse with
      | none => simp [DataIngestionView_post, hn]
      | some raws => simp [DataIngestionView_post, hn]
    · simp [DataIngestionView_post, hn]

/-- C7 witness: a concrete first ingestion followed by a second request. -/
theorem spec_C7_witness :
    DataIngestionView_post
        (some ⟨[("a", "number")], 1, [], some [[("a", Value.int 1)]], []⟩)
        (.ok ⟨[("a", "number")], 1, []⟩)
        (some [[("a", RawValue.plain (Value.int 1))]]) =
      .ok (⟨[("a", "number")], 1, [], some [[("a", Value.int 1)]], []⟩, false) :=
  spec_C7 (.ok ⟨[("a", "number")], 1, []⟩)
    (some [[("a", RawValue.plain (Value.int 1))]])
    ⟨[("a", "number")], 1, [], some [[("a", Value.int 1)]], []⟩ (by decide)

/-- C8: for a `number` column, a non-null string value is accepted exactly
when Python `float()` parses it, and is stored as that float; a
non-numeric string, or a value failing the numeric instance check (e.g. a
JSON array), is rejected with a message naming the row, the column, the
value and the expected type. -/
theorem spec_C8 (r : Int) (c : String) :
    (∀ s f, pyFloatOfString s = some f →
        validateCell r c "number" (.str s) = .ok (.float f)) ∧
      (∀ s, pyFloatOfString s = none →
        validateCell r c "number" (.str s) =
          .error ("Row " ++ toString r ++ ", column \x27" ++ c
            ++ "\x27: invalid value \x27" ++ s ++ "\x27 for type \x27"
            ++ "number" ++ "\x27.")) ∧
      (∀ xs, validateCell r c "number" (.list xs) =
        .error ("Row " ++ toString r ++ ", column \x27" ++ c
          ++ "\x27: invalid value \x27" ++ pyStr (.list xs) ++ "\x27 for type \x27"
          ++ "number" ++ "\x27.")) := by
  refine ⟨?_, ?_, ?_⟩
  · intro s f hf
    simp [validateCell, coerceNonNull, hf]
  · intro s hf
    simp [validateCell, coerceNonNull, hf, invalidValueMsg, pyStr]
  · intro xs
    simp [validateCell, coerceNonNull, invalidValueMsg]

/-- C8 witness: `"nan"` parses and is stored; `"x"` is rejected with the
full message; a JSON array is rejected. -/
theorem spec_C8_witness :
    validateCell 0 "a" "number" (.str "nan") = .ok (.float .nan) ∧
      validateCell 0 "a" "number" (.str "x") =
        .error "Row 0, column \x27a\x27: invalid value \x27x\x27 for type \x27number\x27." ∧
      validateCell 0 "a" "number" (.list ["u"]) =
        .error "Row 0, column \x27a\x27: invalid value \x27[\x27u\x27]\x27 for type \x27number\x27." :=
  ⟨(spec_C8 0 "a").1 "nan" .nan (by decide),
    ((spec_C8 0 "a").2.1 "x" (by decide)).trans (by decide),
    ((spec_C8 0 "a").2.2 ["u"]).trans (by decide)⟩

/-- C9: when the dataset fits within the clamped limit the preview is the
identity with `is_sampled = false`, and in every case the preview length
never exceeds the clamped limit. -/
theorem spec_C9 (data : List Row) (raw : Int) :
    (data.length ≤ clampLimit raw → DataPreviewView_get data raw = (data, false)) ∧
      (DataPreviewView_get data raw).1.length ≤ clampLimit raw := by
  constructor
  · intro h
    simp only [DataPreviewView_get]
    rw [if_neg (by omega)]
  · by_cases h : clampLimit raw < data.length
    · rw [preview_sampled_eq h]
      simp
    · simp only [DataPreviewView_get]
      rw [if_neg (by omega)]
      exact Nat.le_of_not_lt h

/-- C9 witness: one row under a clamped limit of 5 is returned unchanged. -/
theorem spec_C9_witness :
    DataPreviewView_get [[("a", Value.int 1)]] 5 = ([[("a", Value.int 1)]], false) :=
  (spec_C9 [[("a", Value.int 1)]] 5).1 (by decide)

/-- C10: a boolean edit value targeting a `number` column passes the
numeric instance check (Python's `bool` is an `int` subclass) and is
stored unchanged, as shown both on the validator and on a full
`applyEdits` request. -/
theorem spec_C10 :
    (∀ (r : Int) (c : String) (b : Bool),
        validateCell r c "number" (.bool b) = .ok (.bool b)) ∧
      DataGridView_patch ⟨[("a", "number")], 1, [], some [[("a", Value.int 1)]], []⟩
          [("0", [("a", Value.bool true)])] =
        .ok ⟨[("a", "number")], 1, [], some [[("a", Value.int 1)]],
          [("0", [("a", Value.bool true)])]⟩ := by
  constructor
  · intro r c b
    simp [validateCell, coerceNonNull]
  · decide

theorem validatePatch_snd (schema : List (String × String)) (n : Nat)
    (edits : List (String × List (String × Value))) :
    (validatePatch schema n edits).2 = edits.flatMap (entryErrors schema n) := by
  unfold validatePatch
  rw [validatePatchAux_snd]
  rfl

/-- C2: a request containing any invalid cell (unparseable or
out-of-range row index, unknown column, or type-incompatible value) is
rejected whole — even its valid cells are not applied, the table (hence
the overlay and the materialized data) is left untouched — and the error
response carries the complete concatenation, in request order, of the
validation errors of every entry. -/
theorem spec_C2 (t : DataTable) (base : List Row)
    (edits : List (String × List (String × Value)))
    (hfull : t.full_data_json = some base)
    (herr : edits.flatMap (entryErrors t.schema_json base.length) ≠ []) :
    DataGridView_patch t edits =
      .error (edits.flatMap (entryErrors t.schema_json base.length)) := by
  simp only [DataGridView_patch]
  rw [show t.get_data_with_edits = some (materializeFrom t.edited_data_json 0 base) by
    simp [DataTable.get_data_with_edits, hfull]]
  simp only [materializeFrom_length]
  have h2 : (validatePatch t.get_schema base.length edits).2 =
      edits.flatMap (entryErrors t.schema_json base.length) :=
    validatePatch_snd t.schema_json base.length edits
  rw [if_pos (by rw [h2]; exact herr), h2]

/-- C2 witness: one out-of-range row among the edits rejects the whole
request with the full error list. -/
theorem spec_C2_witness :
    DataGridView_patch ⟨[("a", "number")], 1, [], some [[("a", Value.int 1)]], []⟩
        [("0", [("a", Value.int 7)]), ("5", [("a", Value.int 1)])] =
      .error ["Row index 5 out of range."] :=
  (spec_C2 ⟨[("a", "number")], 1, [], some [[("a", Value.int 1)]], []⟩
      [[("a", Value.int 1)]]
      [("0", [("a", Value.int 7)]), ("5", [("a", Value.int 1)])]
      rfl (by decide)).trans (by decide)

/-- C5: with `fullRows` present and `pageSize ≥ 1`, concatenating the
slices served for pages `1..totalPages` reconstructs the materialized
data exactly, and every in-range page succeeds, reporting
`hasNext = end < totalRows` and `hasPrevious = page > 1`. -/
theorem spec_C5 (t : DataTable) (base : List Row) (ps : Nat)
    (hfull : t.full_data_json = some base) (hps : 1 ≤ ps) :
    joinedPages ((t.get_data_with_edits).getD []) ps =
        (t.get_data_with_edits).getD [] ∧
      ∀ k, k < totalPages ((t.get_data_with_edits).getD []).length ps →
        DataGridView_get ((t.get_data_with_edits).getD []) (k + 1) ps =
          .ok (pageSlice ((t.get_data_with_edits).getD []) k ps,
            { page := k + 1
              page_size := ps
              total_rows := ((t.get_data_with_edits).getD []).length
              total_pages := totalPages ((t.get_data_with_edits).getD []).length ps
              has_next := decide (min (k * ps + ps)
                  ((t.get_data_with_edits).getD []).length <
                ((t.get_data_with_edits).getD []).length)
              has_previous := decide (k + 1 > 1) }) :=
  ⟨pagesConcat_eq ps hps _, fun _ hk => getPage_ok hps hk⟩

/-- C5 witness: a two-row table at page size one: the page concatenation
reproduces the materialized rows. -/
theorem spec_C5_witness :
    joinedPages ((DataTable.get_data_with_edits
        ⟨[("a", "number")], 2, [],
          some [[("a", Value.int 1)], [("a", Value.int 2)]], []⟩).getD []) 1 =
      (DataTable.get_data_with_edits
        ⟨[("a", "number")], 2, [],
          some [[("a", Value.int 1)], [("a", Value.int 2)]], []⟩).getD [] :=
  (spec_C5 ⟨[("a", "number")], 2, [],
      some [[("a", Value.int 1)], [("a", Value.int 2)]], []⟩
    [[("a", Value.int 1)], [("a", Value.int 2)]] 1 rfl (by decide)).1

/-- C6: when the dataset exceeds the clamped limit, the preview flags
`is_sampled = true` and returns exactly `limit` rows, the rows at the
strictly increasing indices `i * totalRows / limit` for `i < limit`
(Python's real-valued `i * step` floor, all of which are below
`totalRows`), starting at row 0 and ending below `totalRows`. -/
theorem spec_C6 (data : List Row) (raw : Int) (h : clampLimit raw < data.length) :
    (DataPreviewView_get data raw).2 = true ∧
      (DataPreviewView_get data raw).1.length = clampLimit raw ∧
      (∀ j, j < clampLimit raw →
        (DataPreviewView_get data raw).1[j]? =
          data[j * data.length / clampLimit raw]?) ∧
      List.Pairwise (fun a b => a < b)
        ((List.range (clampLimit raw)).map
          (fun i => i * data.length / clampLimit raw)) ∧
      ((List.range (clampLimit raw)).map
          (fun i => i * data.length / clampLimit raw)).head? = some 0 ∧
      (clampLimit raw - 1) * data.length / clampLimit raw < data.length := by
  have hl := one_le_clampLimit raw
  have hrw := preview_sampled_eq h
  refine ⟨by rw [hrw], by rw [hrw]; simp, ?_, ?_, ?_, ?_⟩
  · intro j hj
    rw [hrw]
    have hidx : sampleIndex data.length (clampLimit raw) j < data.length :=
      sampleIndex_lt_total (by omega) hj
    have hrange : (List.range (clampLimit raw))[j]? = some j := List.getElem?_range hj
    simp only [List.getElem?_map, hrange, Option.map_some']
    rw [List.getD_eq_getElem data [] hidx,
      List.getElem?_eq_getElem (by rw [← sampleIndex_eq]; exact hidx)]
    simp [sampleIndex_eq]
  · rw [List.pairwise_map]
    refine (List.pairwise_lt_range _).imp ?_
    intro a b hab
    have := sampleIndex_strictMono hl h hab
    simpa [sampleIndex_eq] using this
  · rcases Nat.exists_eq_add_of_le hl with ⟨m, hm⟩
    rw [hm, Nat.add_comm 1 m, List.range_succ_eq_map]
    simp
  · have h9 := @sampleIndex_lt_total data.length (clampLimit raw) (by omega)
      (clampLimit raw - 1) (show clampLimit raw - 1 < clampLimit raw by omega)
    rwa [sampleIndex_eq] at h9

/-- C6 witness: three rows with a clamped limit of 2 give a sampled
preview of exactly 2 rows. -/
theorem spec_C6_witness :
    (DataPreviewView_get
        [[("a", Value.int 1)], [("a", Value.int 2)], [("a", Value.int 3)]] 2).2 = true ∧
      (DataPreviewView_get
        [[("a", Value.int 1)], [("a", Value.int 2)], [("a", Value.int 3)]] 2).1.length =
        clampLimit 2 :=
  ⟨(spec_C6 [[("a", Value.int 1)], [("a", Value.int 2)], [("a", Value.int 3)]] 2
      (by decide)).1,
    (spec_C6 [[("a", Value.int 1)], [("a", Value.int 2)], [("a", Value.int 3)]] 2
      (by decide)).2.1⟩

theorem validatePatch_fst_nodup (schema : List (String × String)) (n : Nat)
    (edits : List (String × List (String × Value))) :
    NodupKeys (validatePatch schema n edits).1 :=
  validatePatchAux_fst_nodup schema n edits [] [] (by simp [NodupKeys, keysOf])

theorem validatePatch_fst_rows_nodup (schema : List (String × String)) (n : Nat)
    (edits : List (String × List (String × Value))) :
    ∀ r row, alookup r (validatePatch schema n edits).1 = some row → NodupKeys row :=
  validatePatchAux_fst_rows schema n NodupKeys
    (fun ri rowE => validateRowEdits_nodup schema ri rowE) edits [] []
    (fun _ _ hr => by cases hr)

theorem validatePatch_fst_rows_typed (schema : List (String × String)) (n : Nat)
    (edits : List (String × List (String × Value))) :
    ∀ r row, alookup r (validatePatch schema n edits).1 = some row →
      ∀ c v, alookup c row = some v →
        ∃ ty, alookup c schema = some ty ∧ ValueTypeOk ty v :=
  validatePatchAux_fst_rows schema n
    (fun row => ∀ c v, alookup c row = some v →
      ∃ ty, alookup c schema = some ty ∧ ValueTypeOk ty v)
    (fun ri rowE => validateRowEdits_typed schema ri rowE) edits [] []
    (fun _ _ hr => by cases hr)

/-- C3 counterexample: the string `"nan"` is accepted into a `number`
column (Python `float("nan")` succeeds) and the stored value is the NaN
float, contradicting the claim that an accepted number string never
stores a NaN. -/
theorem spec_C3_counterexample :
    DataGridView_patch ⟨[("a", "number")], 1, [], some [[("a", Value.int 1)]], []⟩
        [("0", [("a", Value.str "nan")])] =
      .ok ⟨[("a", "number")], 1, [], some [[("a", Value.int 1)]],
        [("0", [("a", Value.float .nan)])]⟩ := by
  decide

/-- C3 (amended): a successful `applyEdits` preserves the invariant that
every overlay value conforms to its column's declared type — null
always; `number` columns hold booleans, integers or floats; `boolean`
columns booleans; `string` columns strings; other declared types (e.g.
`date`) hold the value as given. Floats accepted into number columns
from strings may however be NaN or infinite (`"nan"`, `"inf"` parse
successfully), so JSON-safety does not exclude non-finite numbers. -/
theorem spec_C3 (t t' : DataTable) (base : List Row)
    (edits : List (String × List (String × Value)))
    (hfull : t.full_data_json = some base)
    (hty : OverlayTyped t.schema_json t.edited_data_json)
    (hok : DataGridView_patch t edits = .ok t') :
    OverlayTyped t.schema_json t'.edited_data_json := by
  obtain ⟨-, -, -, -, -, hov⟩ := patch_ok_spec hfull hok
  rw [hov]
  intro r row hr c v hc
  rw [alookup_dictUpdate _ (validatePatch_fst_nodup _ _ _) r] at hr
  cases halo : alookup r (validatePatch t.schema_json base.length edits).1 with
  | some row2 =>
    rw [halo] at hr
    have hr2 : row2 = row := by simpa [Option.or] using hr
    subst hr2
    exact validatePatch_fst_rows_typed _ _ _ r row2 halo c v hc
  | none =>
    rw [halo] at hr
    exact hty r row (by simpa [Option.or] using hr) c v hc

/-- C3 witness: an integer edit through `applyEdits` yields a typed
overlay from a typed (empty) starting overlay. -/
theorem spec_C3_witness :
    OverlayTyped [("a", "number")] [("0", [("a", Value.int 5)])] :=
  spec_C3 ⟨[("a", "number")], 1, [], some [[("a", Value.int 1)]], []⟩
    ⟨[("a", "number")], 1, [], some [[("a", Value.int 1)]],
      [("0", [("a", Value.int 5)])]⟩
    [[("a", Value.int 1)]]
    [("0", [("a", Value.int 5)])]
    rfl
    (fun r row hr => by cases hr)
    (by decide)

/-- C1 counterexample: after `E1` edits column `a` of row 0 and `E2`
edits column `b` of the same row, the materialized cell `(0, "a")` shows
the base value 1, not `E1`'s value 10 — the row-level `dict.update` of
`validated_edits` dropped `E1`'s edit to the sibling column. -/
theorem spec_C1_counterexample :
    DataGridView_patch
        ⟨[("a", "number"), ("b", "number")], 1, [],
          some [[("a", Value.int 1), ("b", Value.int 2)]], []⟩
        [("0", [("a", Value.int 10)])] =
      .ok ⟨[("a", "number"), ("b", "number")], 1, [],
        some [[("a", Value.int 1), ("b", Value.int 2)]],
        [("0", [("a", Value.int 10)])]⟩ ∧
      DataGridView_patch
        ⟨[("a", "number"), ("b", "number")], 1, [],
          some [[("a", Value.int 1), ("b", Value.int 2)]],
          [("0", [("a", Value.int 10)])]⟩
        [("0", [("b", Value.int 20)])] =
      .ok ⟨[("a", "number"), ("b", "number")], 1, [],
        some [[("a", Value.int 1), ("b", Value.int 2)]],
        [("0", [("b", Value.int 20)])]⟩ ∧
      cellAt ((DataTable.get_data_with_edits
          ⟨[("a", "number"), ("b", "number")], 1, [],
            some [[("a", Value.int 1), ("b", Value.int 2)]],
            [("0", [("b", Value.int 20)])]⟩).getD []) 0 "a" = some (Value.int 1) ∧
      Value.int 1 ≠ Value.int 10 := by
  refine ⟨by decide, by decide, by decide, by decide⟩

/-- C1 (amended): two successful `applyEdits` calls compose with
last-write-wins at ROW granularity: the materialized data reflects
`E2`'s validated value for every cell of every row keyed in `E2`'s
validated edits, and reflects `E1`'s validated value for cells of rows
keyed in `E1` but not keyed in `E2`; for a row keyed in both, `E2`'s
whole row object replaces `E1`'s, so `E1`'s edits to other columns of
that row are lost (see the counterexample). -/
theorem spec_C1 (t t1 t2 : DataTable) (base : List Row)
    (e1 e2 : List (String × List (String × Value)))
    (hfull : t.full_data_json = some base)
    (h1 : DataGridView_patch t e1 = .ok t1)
    (h2 : DataGridView_patch t1 e2 = .ok t2)
    (i : Nat) (hi : i < base.length) (c : String) (w : Value) :
    ((∃ r2, alookup (toString i) (validatePatch t.schema_json base.length e2).1 = some r2 ∧
        alookup c r2 = some w) →
      cellAt ((t2.get_data_with_edits).getD []) i c = some w) ∧
      (alookup (toString i) (validatePatch t.schema_json base.length e2).1 = none →
        (∃ r1, alookup (toString i) (validatePatch t.schema_json base.length e1).1 = some r1 ∧
          alookup c r1 = some w) →
        cellAt ((t2.get_data_with_edits).getD []) i c = some w) := by
  obtain ⟨-, hs1, -, -, hf1, hov1⟩ := patch_ok_spec hfull h1
  have hfull1 : t1.full_data_json = some base := by rw [hf1, hfull]
  obtain ⟨-, hs2, -, -, hf2, hov2⟩ := patch_ok_spec hfull1 h2
  rw [hs1] at hov2
  have hfull2 : t2.full_data_json = some base := by rw [hf2, hfull1]
  have hmat : (t2.get_data_with_edits).getD [] =
      materializeFrom t2.edited_data_json 0 base := by
    simp [DataTable.get_data_with_edits, hfull2]
  have key : ∀ (rr : List (String × Value)),
      alookup (toString i) t2.edited_data_json = some rr →
      NodupKeys rr → alookup c rr = some w →
      cellAt ((t2.get_data_with_edits).getD []) i c = some w := by
    intro rr hrr hnod hcw
    rw [hmat]
    unfold cellAt
    rw [materializeFrom_getElem? _ base 0 i, List.getElem?_eq_getElem hi]
    simp only [Option.map_some', Nat.zero_add, hrr]
    unfold mergeRow
    rw [alookup_dictUpdate _ hnod c, hcw]
    rfl
  constructor
  · rintro ⟨r2, hr2, hcw⟩
    refine key r2 ?_ (validatePatch_fst_rows_nodup _ _ _ _ _ hr2) hcw
    rw [hov2, alookup_dictUpdate _ (validatePatch_fst_nodup _ _ _), hr2]
    rfl
  · rintro hno ⟨r1, hr1, hcw⟩
    refine key r1 ?_ (validatePatch_fst_rows_nodup _ _ _ _ _ hr1) hcw
    rw [hov2, alookup_dictUpdate _ (validatePatch_fst_nodup _ _ _), hno,
      hov1, alookup_dictUpdate _ (validatePatch_fst_nodup _ _ _), hr1]
    rfl

/-- C1 witness: `E1` edits row 0 and `E2` edits row 1 of a two-row table;
after both calls, the materialized cell `(0, "a")` still shows `E1`'s
value 10 because row 0 is not keyed in `E2`'s validated edits. -/
theorem spec_C1_witness :
    cellAt ((DataTable.get_data_with_edits
        ⟨[("a", "number"), ("b", "number")], 2, [],
          some [[("a", Value.int 1), ("b", Value.int 2)],
            [("a", Value.int 3), ("b", Value.int 4)]],
          [("0", [("a", Value.int 10)]), ("1", [("b", Value.int 20)])]⟩).getD [])
      0 "a" = some (Value.int 10) :=
  (spec_C1
    ⟨[("a", "number"), ("b", "number")], 2, [],
      some [[("a", Value.int 1), ("b", Value.int 2)],
        [("a", Value.int 3), ("b", Value.int 4)]], []⟩
    ⟨[("a", "number"), ("b", "number")], 2, [],
      some [[("a", Value.int 1), ("b", Value.int 2)],
        [("a", Value.int 3), ("b", Value.int 4)]],
      [("0", [("a", Value.int 10)])]⟩
    ⟨[("a", "number"), ("b", "number")], 2, [],
      some [[("a", Value.int 1), ("b", Value.int 2)],
        [("a", Value.int 3), ("b", Value.int 4)]],
      [("0", [("a", Value.int 10)]), ("1", [("b", Value.int 20)])]⟩
    [[("a", Value.int 1), ("b", Value.int 2)],
      [("a", Value.int 3), ("b", Value.int 4)]]
    [("0", [("a", Value.int 10)])]
    [("1", [("b", Value.int 20)])]
    rfl (by decide) (by decide) 0 (by decide) "a" (Value.int 10)).2
    (by decide) ⟨[("a", Value.int 10)], by decide, by decide⟩

end Views
